import Mathlib

/-
Verification of the prompt-ab-test extension (src/extensions/prompt-ab-test/index.ts)
against its natural-language specification.

Modelling conventions:
- JavaScript strings are lists of UTF-16 code units (the unit `charCodeAt` iterates over).
- JavaScript numbers occurring in the weight arithmetic of selectVariant are rationals;
  seeds are integers (the JS `%` on integers is Int.tmod, the truncating remainder).
- The throwing selectVariant is Option-valued: none models the thrown exception.
- The module-level Map used as assignment cache is an association list whose lookup
  returns the first matching entry; entries are only inserted for keys not yet present,
  so prepending a fresh entry is observationally the same as Map.set.
-/

/-- A UTF-16 code unit, the unit over which JavaScript strings iterate. -/
abbrev CodeUnit := Fin 65536

/-- A JavaScript string, given by its sequence of UTF-16 code units. -/
abbrev JSString := List CodeUnit

/-- Embeds a Lean string literal as a JavaScript string. Every character appearing in
the literals of this development lies in the Basic Multilingual Plane, where one code
point is one UTF-16 code unit, so mapping code points suffices. -/
def jstr (s : String) : JSString :=
  s.data.map (fun c => ⟨c.toNat % 65536, Nat.mod_lt _ (by norm_num)⟩)

/-- The code unit of the character ":" used to build composite cache keys. -/
def colonCU : CodeUnit := 58

-- ============================================================================
-- Hasher (source: hashString, index.ts lines 72-79)
-- ============================================================================

/-- One iteration of the hashString loop, from the source line
`hash = ((hash * 33) ^ str.charCodeAt(i)) >>> 0`. JavaScript coerces `hash * 33`
to its low 32 bits before the bitwise XOR, and `>>> 0` reinterprets the 32-bit
result as unsigned; since the code unit is below 2^16 the net unsigned value is
`((hash * 33) mod 2^32) XOR code`. -/
def hashStep (h : ℕ) (c : CodeUnit) : ℕ := ((h * 33) % 2 ^ 32) ^^^ c.val

/-- The deterministic djb2-xor string hash of the source, folding `hashStep`
over the code units starting from the seed accumulator 5381. -/
def hashString (s : JSString) : ℕ := s.foldl hashStep 5381

/-- One step of the recurrence exactly as the specification words it:
the accumulator becomes ((accumulator × 33) XOR code) truncated to unsigned 32 bits. -/
def hashStepSpec (h : ℕ) (c : CodeUnit) : ℕ := ((h * 33) ^^^ c.val) % 2 ^ 32

/-- The specification-worded djb2-xor recurrence. -/
def hashStringSpec (s : JSString) : ℕ := s.foldl hashStepSpec 5381

lemma hashStep_eq_hashStepSpec (h : ℕ) (c : CodeUnit) : hashStep h c = hashStepSpec h c := by
  apply Nat.eq_of_testBit_eq
  intro i
  simp only [hashStep, hashStepSpec, Nat.testBit_xor, Nat.testBit_mod_two_pow]
  by_cases hi : i < 32
  · simp [hi]
  · have hc : (c.val).testBit i = false := by
      apply Nat.testBit_lt_two_pow
      have h65536 : (65536 : ℕ) ≤ 2 ^ i := by
        calc (65536 : ℕ) = 2 ^ 16 := by norm_num
        _ ≤ 2 ^ i := Nat.pow_le_pow_right (by norm_num) (by omega)
      exact lt_of_lt_of_le c.isLt h65536
    simp [hi, hc]

lemma hashStep_lt (h : ℕ) (c : CodeUnit) : hashStep h c < 2 ^ 32 := by
  apply Nat.xor_lt_two_pow
  · exact Nat.mod_lt _ (by norm_num)
  · exact lt_trans c.isLt (by norm_num)

lemma foldl_hashStep_lt (s : JSString) : ∀ a : ℕ, a < 2 ^ 32 → s.foldl hashStep a < 2 ^ 32 := by
  induction s with
  | nil => intro a ha; simpa using ha
  | cons c t ih =>
    intro a _
    simp only [List.foldl_cons]
    exact ih _ (hashStep_lt a c)

/-- Claim C5: hashString equals the djb2-xor recurrence of the specification
(accumulator seeded with 5381, each step ((acc × 33) XOR code unit) truncated to
unsigned 32 bits), the empty string hashes to 5381, and every hash value is an
unsigned 32-bit integer. -/
theorem c5_hashString_djb2 (s : JSString) :
    hashString s = hashStringSpec s ∧ hashString [] = 5381 ∧ hashString s < 2 ^ 32 := by
  refine ⟨?_, rfl, foldl_hashStep_lt s 5381 (by norm_num)⟩
  have hfun : hashStep = hashStepSpec :=
    funext fun h => funext fun c => hashStep_eq_hashStepSpec h c
  unfold hashString hashStringSpec
  rw [hfun]

-- ============================================================================
-- Variant pool data model (source: PromptVariant, index.ts lines 11-40)
-- ============================================================================

/-- A single variant within an experiment. Optional fields are absent exactly when
the corresponding TypeScript field is undefined. -/
structure PromptVariant where
  id : JSString
  weight : Option ℚ := none
  prependContext : Option JSString := none
  systemPrompt : Option JSString := none
deriving DecidableEq

-- ============================================================================
-- WeightedSelector (source: selectVariant, index.ts lines 88-116)
-- ============================================================================

/-- The clamped effective weight of a variant: `Math.max(0, v.weight ?? 1)`. -/
def clampW (v : PromptVariant) : ℚ := max 0 (v.weight.getD 1)

/-- `weights.reduce((a, b) => a + b, 0)`: the sum of the clamped weights. -/
def totalW (vs : List PromptVariant) : ℚ := (vs.map clampW).sum

/-- `((seed % 1_000_000) / 1_000_000) * totalWeight`, with the JavaScript remainder
on integers being the truncating remainder Int.tmod. -/
def positionOf (vs : List PromptVariant) (seed : ℤ) : ℚ :=
  ((Int.tmod seed 1000000 : ℤ) : ℚ) / 1000000 * totalW vs

/-- The cumulative-weight walk of selectVariant: starting from the running total
`cum`, returns the first variant whose cumulative weight strictly exceeds
`position`, and none when the loop falls through. -/
def walkSel (position : ℚ) : ℚ → List PromptVariant → Option PromptVariant
  | _, [] => none
  | cum, v :: rest =>
    if position < cum + clampW v then some v else walkSel position (cum + clampW v) rest

/-- selectVariant from the source: none models the thrown error on an empty pool;
if the clamped total weight is non-positive the first variant is returned; otherwise
the cumulative walk runs and the last variant is the floating-point fallthrough case. -/
def selectVariant (variants : List PromptVariant) (seed : ℤ) : Option PromptVariant :=
  match variants with
  | [] => none
  | v0 :: rest =>
    if totalW (v0 :: rest) ≤ 0 then some v0
    else
      match walkSel (positionOf (v0 :: rest) seed) 0 (v0 :: rest) with
      | some v => some v
      | none => some ((v0 :: rest).getLast (List.cons_ne_nil v0 rest))

lemma walkSel_mem : ∀ (l : List PromptVariant) (p c : ℚ) (v : PromptVariant),
    walkSel p c l = some v → v ∈ l := by
  intro l
  induction l with
  | nil => intro p c v h; simp [walkSel] at h
  | cons a t ih =>
    intro p c v h
    simp only [walkSel] at h
    split at h
    · rw [Option.some.injEq] at h
      rw [← h]
      exact List.mem_cons_self a t
    · exact List.mem_cons_of_mem _ (ih _ _ _ h)

lemma selectVariant_mem (vs : List PromptVariant) (seed : ℤ) (h : vs ≠ []) :
    ∃ v ∈ vs, selectVariant vs seed = some v := by
  match vs with
  | [] => exact absurd rfl h
  | v0 :: rest =>
    by_cases ht : totalW (v0 :: rest) ≤ 0
    · exact ⟨v0, List.mem_cons_self _ _, by simp [selectVariant, ht]⟩
    · cases hw : walkSel (positionOf (v0 :: rest) seed) 0 (v0 :: rest) with
      | some v => exact ⟨v, walkSel_mem _ _ _ _ hw, by simp [selectVariant, ht, hw]⟩
      | none =>
        exact ⟨(v0 :: rest).getLast (List.cons_ne_nil _ _), List.getLast_mem _,
          by simp [selectVariant, ht, hw]⟩

lemma selectVariant_singleton (v : PromptVariant) (seed : ℤ) :
    selectVariant [v] seed = some v := by
  rcases selectVariant_mem [v] seed (by simp) with ⟨w, hw, he⟩
  simp only [List.mem_singleton] at hw
  rw [he, hw]

/-- Claim C6: selectVariant fails exactly on the empty pool — it returns none for
every seed on the empty list, returns some element of the pool for every non-empty
list and seed, and returns the unique variant on a singleton pool. -/
theorem c6_selectVariant_totality :
    (∀ seed : ℤ, selectVariant [] seed = none) ∧
    (∀ (vs : List PromptVariant) (seed : ℤ), vs ≠ [] →
      ∃ v ∈ vs, selectVariant vs seed = some v) ∧
    (∀ (v : PromptVariant) (seed : ℤ), selectVariant [v] seed = some v) :=
  ⟨fun _ => rfl, selectVariant_mem, selectVariant_singleton⟩

/-- A concrete one-variant pool used to instantiate claim C6. -/
def c6SoloVariant : PromptVariant := { id := jstr "solo", weight := some 1 }

/-- Witness for claim C6 at the pool [solo] and seed 42. -/
theorem c6_witness :
    ([c6SoloVariant] : List PromptVariant) ≠ [] ∧
    (∃ v ∈ [c6SoloVariant], selectVariant [c6SoloVariant] 42 = some v) :=
  ⟨by simp, c6_selectVariant_totality.2.1 [c6SoloVariant] 42 (by simp)⟩

-- ============================================================================
-- Claim C4: the selection algorithm described structurally
-- ============================================================================

/-- The list of cumulative clamped weights along the variant list, starting from a
running total `cum`; entry i is the cumulative weight after variant i. -/
def cumsFrom (cum : ℚ) : List PromptVariant → List ℚ
  | [] => []
  | v :: rest => (cum + clampW v) :: cumsFrom (cum + clampW v) rest

/-- The selector as the claim words it: clamp and sum the weights; on non-positive
total return the first variant; otherwise return the first variant in list order
whose cumulative clamped weight exceeds the position, or the last variant in list
order if no variant satisfies that condition. -/
def selectVariantSpec (variants : List PromptVariant) (seed : ℤ) : Option PromptVariant :=
  match variants with
  | [] => none
  | v0 :: rest =>
    if totalW (v0 :: rest) ≤ 0 then some v0
    else
      match ((v0 :: rest).zip (cumsFrom 0 (v0 :: rest))).find?
          (fun q => decide (positionOf (v0 :: rest) seed < q.2)) with
      | some q => some q.1
      | none => some ((v0 :: rest).getLast (List.cons_ne_nil v0 rest))

lemma walkSel_eq_find : ∀ (l : List PromptVariant) (cum p : ℚ),
    walkSel p cum l
      = ((l.zip (cumsFrom cum l)).find? (fun q => decide (p < q.2))).map Prod.fst := by
  intro l
  induction l with
  | nil => intro cum p; rfl
  | cons v t ih =>
    intro cum p
    simp only [walkSel, cumsFrom, List.zip_cons_cons]
    by_cases h : p < cum + clampW v
    · rw [List.find?_cons_of_pos _ (by simpa using h)]
      simp [h]
    · rw [List.find?_cons_of_neg _ (by simpa using h)]
      simp only [if_neg h]
      exact ih (cum + clampW v) p

lemma selectVariant_eq_spec (vs : List PromptVariant) (seed : ℤ) :
    selectVariant vs seed = selectVariantSpec vs seed := by
  match vs with
  | [] => rfl
  | v0 :: rest =>
    simp only [selectVariant, selectVariantSpec, walkSel_eq_find]
    by_cases ht : totalW (v0 :: rest) ≤ 0
    · simp [ht]
    · simp only [if_neg ht]
      cases hf : ((v0 :: rest).zip (cumsFrom 0 (v0 :: rest))).find?
          (fun q => decide (positionOf (v0 :: rest) seed < q.2)) with
      | none => simp [hf]
      | some q => simp [hf]

lemma positionOf_range (vs : List PromptVariant) (seed : ℤ) (hs : 0 ≤ seed)
    (ht : 0 < totalW vs) : 0 ≤ positionOf vs seed ∧ positionOf vs seed < totalW vs := by
  have h0 : (0 : ℤ) ≤ Int.tmod seed 1000000 := Int.tmod_nonneg _ hs
  have h1 : Int.tmod seed 1000000 < 1000000 := Int.tmod_lt_of_pos seed (by norm_num)
  have h0q : (0 : ℚ) ≤ ((Int.tmod seed 1000000 : ℤ) : ℚ) / 1000000 := by
    apply div_nonneg _ (by norm_num)
    exact_mod_cast h0
  have h1q : ((Int.tmod seed 1000000 : ℤ) : ℚ) / 1000000 < 1 := by
    rw [div_lt_one (by norm_num)]
    exact_mod_cast h1
  constructor
  · exact mul_nonneg h0q (le_of_lt ht)
  · calc positionOf vs seed
        < 1 * totalW vs := mul_lt_mul_of_pos_right h1q ht
    _ = totalW vs := one_mul _

/-- Claim C4 (amended): for every non-empty variant list, selectVariant clamps each
weight to max(0, weight ?? 1), sums them, returns the first variant when the total is
non-positive, and otherwise returns the first variant in list order whose cumulative
clamped weight exceeds the position, or the last variant when none does — for every
integer seed; and for every nonnegative seed the position lies in [0, totalWeight). -/
theorem c4_selection_rule (vs : List PromptVariant) (_hne : vs ≠ []) :
    (∀ seed : ℤ, selectVariant vs seed = selectVariantSpec vs seed) ∧
    (∀ seed : ℤ, 0 ≤ seed → 0 < totalW vs →
      0 ≤ positionOf vs seed ∧ positionOf vs seed < totalW vs) :=
  ⟨fun seed => selectVariant_eq_spec vs seed, fun seed hs ht => positionOf_range vs seed hs ht⟩

/-- A concrete weight-1 variant used for claims about selectVariant positions. -/
def c4Variant : PromptVariant := { id := jstr "a", weight := some 1 }

/-- Counterexample to claim C4 as stated: at the negative seed -1 on a pool of
positive total weight, the computed position is negative, hence not a point of the
half-open range [0, totalWeight). -/
theorem c4_counterexample :
    positionOf [c4Variant] (-1) < 0 ∧ 0 < totalW [c4Variant] := by
  have ht : Int.tmod (-1) 1000000 = -1 := by decide
  constructor
  · simp only [positionOf, ht]
    norm_num [totalW, clampW, c4Variant]
  · norm_num [totalW, clampW, c4Variant]

/-- Witness for claim C4 at the singleton pool and seed 3. -/
theorem c4_witness :
    (selectVariant [c4Variant] 3 = selectVariantSpec [c4Variant] 3) ∧
    (0 ≤ positionOf [c4Variant] 3 ∧ positionOf [c4Variant] 3 < totalW [c4Variant]) := by
  refine ⟨(c4_selection_rule [c4Variant] (by simp)).1 3,
    (c4_selection_rule [c4Variant] (by simp)).2 3 (by norm_num) ?_⟩
  norm_num [totalW, clampW, c4Variant]

-- ============================================================================
-- Claim C10: negative seeds short-circuit the cumulative walk
-- ============================================================================

lemma tmod_million_neg (seed : ℤ) (hs : seed < 0) (hnd : ¬ ((1000000 : ℤ) ∣ seed)) :
    Int.tmod seed 1000000 < 0 := by
  cases seed with
  | ofNat n => exact absurd hs (by simp [Int.ofNat_eq_natCast])
  | negSucc m =>
    have hrfl : Int.tmod (Int.negSucc m) 1000000 = -(((m + 1) % 1000000 : ℕ) : ℤ) := rfl
    have hm : (m + 1) % 1000000 ≠ 0 := by
      intro h0
      apply hnd
      rw [← Int.natAbs_dvd_natAbs]
      have h1 : (Int.negSucc m).natAbs = m + 1 := rfl
      have h2 : ((1000000 : ℤ)).natAbs = 1000000 := rfl
      rw [h1, h2]
      exact Nat.dvd_of_mod_eq_zero h0
    rw [hrfl]
    omega

lemma positionOf_neg (vs : List PromptVariant) (seed : ℤ) (ht : 0 < totalW vs)
    (hs : seed < 0) (hnd : ¬ ((1000000 : ℤ) ∣ seed)) : positionOf vs seed < 0 := by
  have h1 : Int.tmod seed 1000000 < 0 := tmod_million_neg seed hs hnd
  have h1q : ((Int.tmod seed 1000000 : ℤ) : ℚ) / 1000000 < 0 := by
    apply div_neg_of_neg_of_pos _ (by norm_num)
    exact_mod_cast h1
  exact mul_neg_of_neg_of_pos h1q ht

/-- Claim C10: for every non-empty variant list of positive clamped total weight and
every negative integer seed that is not an exact multiple of 1,000,000, selectVariant
returns the first variant in list order (regardless of the weights, including a
zero-weight first variant), because the truncating remainder makes the computed
position negative and the first cumulative check succeeds. -/
theorem c10_negative_seed_first_variant (vs : List PromptVariant) (hne : vs ≠ [])
    (ht : 0 < totalW vs) (seed : ℤ) (hs : seed < 0) (hnd : ¬ ((1000000 : ℤ) ∣ seed)) :
    selectVariant vs seed = some (vs.head hne) := by
  cases vs with
  | nil => exact absurd rfl hne
  | cons v0 rest =>
    have hp : positionOf (v0 :: rest) seed < 0 := positionOf_neg _ seed ht hs hnd
    simp only [selectVariant, List.head_cons]
    rw [if_neg (not_le.mpr ht)]
    have hw : walkSel (positionOf (v0 :: rest) seed) 0 (v0 :: rest) = some v0 := by
      simp only [walkSel]
      rw [if_pos]
      calc positionOf (v0 :: rest) seed < 0 := hp
      _ ≤ 0 + clampW v0 := by
        rw [zero_add]
        exact le_max_left _ _
    rw [hw]

/-- A two-variant pool whose first variant has weight 0, used to instantiate C10. -/
def c10Pool : List PromptVariant :=
  [{ id := jstr "zero", weight := some 0 }, { id := jstr "one", weight := some 1 }]

/-- Witness for claim C10 at the pool [zero(w=0), one(w=1)] and seed -1. -/
theorem c10_witness :
    selectVariant c10Pool (-1) = some (c10Pool.head (by simp [c10Pool])) :=
  c10_negative_seed_first_variant c10Pool (by simp [c10Pool])
    (by norm_num [c10Pool, totalW, clampW]) (-1) (by norm_num) (by decide)

-- ============================================================================
-- Claim C2: the 9:1 ratio test over seeds 0..9999
-- ============================================================================

/-- The heavy variant of the ratio test (weight 9). -/
def c2Heavy : PromptVariant := { id := jstr "heavy", weight := some 9 }

/-- The light variant of the ratio test (weight 1). -/
def c2Light : PromptVariant := { id := jstr "light", weight := some 1 }

/-- The two-variant pool [heavy(w=9), light(w=1)] of the ratio test. -/
def c2Pool : List PromptVariant := [c2Heavy, c2Light]

lemma c2_select_heavy (s : ℕ) (hs : s < 900000) :
    selectVariant c2Pool (s : ℤ) = some c2Heavy := by
  have htot : totalW c2Pool = 10 := by norm_num [c2Pool, totalW, clampW, c2Heavy, c2Light]
  have hmod : Int.tmod (s : ℤ) 1000000 = ((s % 1000000 : ℕ) : ℤ) := rfl
  have hmod2 : s % 1000000 = s := Nat.mod_eq_of_lt (by omega)
  have hsq : (s : ℚ) < 900000 := by exact_mod_cast hs
  have hp : positionOf c2Pool (s : ℤ) < 9 := by
    unfold positionOf
    rw [hmod, hmod2, htot, div_mul_eq_mul_div, div_lt_iff₀ (by norm_num)]
    push_cast
    linarith
  have hcl : clampW c2Heavy = 9 := by norm_num [clampW, c2Heavy]
  simp only [c2Pool] at hp ⊢
  simp only [selectVariant]
  rw [if_neg (by
    rw [show totalW [c2Heavy, c2Light] = 10 from by simpa [c2Pool] using htot]
    norm_num)]
  have hw : walkSel (positionOf [c2Heavy, c2Light] (s : ℤ)) 0 [c2Heavy, c2Light]
      = some c2Heavy := by
    simp only [walkSel]
    rw [if_pos]
    rw [zero_add, hcl]
    exact hp
  rw [hw]

/-- Decides whether a seed selects the heavy variant of the ratio-test pool. -/
def c2SelectsHeavy (s : ℕ) : Bool := decide (selectVariant c2Pool (s : ℤ) = some c2Heavy)

lemma countP_range_eq_self (p : ℕ → Bool) :
    ∀ n : ℕ, (∀ a, a < n → p a = true) → (List.range n).countP p = n := by
  intro n
  induction n with
  | zero => intro _; rfl
  | succ m ih =>
    intro h
    rw [List.range_succ, List.countP_append]
    rw [ih (fun a ha => h a (by omega))]
    simp [h m (by omega)]

/-- Claim C2 is violated by the code: over the seeds 0 through 9999 the pool
[heavy(w=9), light(w=1)] selects heavy for every single seed, so the empirical
fraction is exactly 1, which does not lie below the 95% bound the test asserts. -/
theorem c2_ratio_all_heavy :
    (List.range 10000).countP c2SelectsHeavy = 10000 ∧
    ¬ (((List.range 10000).countP c2SelectsHeavy : ℚ) / 10000 < 95 / 100) := by
  have hall : ∀ a, a < 10000 → c2SelectsHeavy a = true := by
    intro a ha
    rw [c2SelectsHeavy, decide_eq_true_eq]
    exact c2_select_heavy a (by omega)
  have hcount := countP_range_eq_self c2SelectsHeavy 10000 hall
  refine ⟨hcount, ?_⟩
  rw [hcount]
  norm_num

-- ============================================================================
-- Claim C1: the composite assignment key
-- ============================================================================

/-- The composite string key `${sessionKey}:${experimentId}`, built identically as
the assignment-cache key (getVariantForSession) and as the hash input (assignVariant). -/
def compositeKey (sessionKey experimentId : JSString) : JSString :=
  sessionKey ++ colonCU :: experimentId

lemma append_sep_inj {c : CodeUnit} :
    ∀ {k1 : JSString} {k2 e1 e2 : JSString}, c ∉ k1 → c ∉ k2 →
      k1 ++ c :: e1 = k2 ++ c :: e2 → k1 = k2 ∧ e1 = e2 := by
  intro k1
  induction k1 with
  | nil =>
    intro k2 e1 e2 _ h2 heq
    cases k2 with
    | nil => simpa using heq
    | cons b t =>
      simp only [List.nil_append, List.cons_append, List.cons.injEq] at heq
      exact absurd (heq.1 ▸ List.mem_cons_self b t) h2
  | cons a t ih =>
    intro k2 e1 e2 h1 h2 heq
    cases k2 with
    | nil =>
      simp only [List.cons_append, List.nil_append, List.cons.injEq] at heq
      exact absurd (heq.1 ▸ List.mem_cons_self a t) h1
    | cons b t2 =>
      simp only [List.cons_append, List.cons.injEq] at heq
      have hrec := ih (fun hm => h1 (List.mem_cons_of_mem a hm))
        (fun hm => h2 (List.mem_cons_of_mem b hm)) heq.2
      exact ⟨by rw [heq.1, hrec.1], hrec.2⟩

/-- Claim C1 (amended): for session keys that contain no ":" code unit, the composite
key sessionKey + ":" + experimentId determines the pair — two such pairs with equal
composite keys are equal componentwise. -/
theorem c1_compositeKey_injective (k1 e1 k2 e2 : JSString)
    (h1 : colonCU ∉ k1) (h2 : colonCU ∉ k2)
    (heq : compositeKey k1 e1 = compositeKey k2 e2) : k1 = k2 ∧ e1 = e2 :=
  append_sep_inj h1 h2 heq

/-- Counterexample to claim C1 as stated: the two distinct pairs ("a:b", "c") and
("a", "b:c") build the same composite key "a:b:c". -/
theorem c1_counterexample :
    compositeKey (jstr "a:b") (jstr "c") = compositeKey (jstr "a") (jstr "b:c") ∧
    ¬ (jstr "a:b" = jstr "a" ∧ jstr "c" = jstr "b:c") := by
  constructor
  · decide
  · decide

/-- Witness for claim C1 at colon-free concrete strings. -/
theorem c1_witness : jstr "sess" = jstr "sess" ∧ jstr "exp" = jstr "exp" :=
  c1_compositeKey_injective (jstr "sess") (jstr "exp") (jstr "sess") (jstr "exp")
    (by decide) (by decide) rfl

-- ============================================================================
-- Experiments, assignment, and the assignment cache
-- (source: AbTestExperiment lines 43-57, assignVariant lines 123-130,
--  assignmentCache/getVariantForSession lines 173-186)
-- ============================================================================

/-- A validated A/B test experiment. Optional fields are absent exactly when the
TypeScript field is undefined. -/
structure AbTestExperiment where
  id : JSString
  description : Option JSString := none
  enabled : Option Bool := none
  variants : List PromptVariant := []
  agentIds : Option (List JSString) := none
deriving DecidableEq

/-- assignVariant from the source: hash the composite key and select. -/
def assignVariant (sessionKey experimentId : JSString)
    (variants : List PromptVariant) : Option PromptVariant :=
  selectVariant variants (hashString (compositeKey sessionKey experimentId) : ℤ)

lemma assignVariant_singleton (k eid : JSString) (v : PromptVariant) :
    assignVariant k eid [v] = some v :=
  selectVariant_singleton v _

/-- The assignment cache `Map<cacheKey, PromptVariant>` as an association list;
lookups return the first matching entry and fresh entries are prepended. -/
abbrev Cache := List (JSString × PromptVariant)

/-- `assignmentCache.get(key)`. -/
def mapGet : Cache → JSString → Option PromptVariant
  | [], _ => none
  | (k, v) :: rest, key => if key = k then some v else mapGet rest key

/-- getVariantForSession from the source: return the cached assignment when the
composite key is present, otherwise compute it, store it and return it. The first
component none models the exception propagating out of assignVariant, in which
case nothing was stored. -/
def getVariantForSession (cache : Cache) (sessionKey : JSString)
    (e : AbTestExperiment) : Option PromptVariant × Cache :=
  match mapGet cache (compositeKey sessionKey e.id) with
  | some v => (some v, cache)
  | none =>
    match assignVariant sessionKey e.id e.variants with
    | some v => (some v, (compositeKey sessionKey e.id, v) :: cache)
    | none => (none, cache)

-- ============================================================================
-- The before_prompt_build handler (source: index.ts lines 201-239)
-- ============================================================================

/-- The request context handed to before_prompt_build. -/
structure BuildCtx where
  sessionKey : Option JSString := none
  sessionId : Option JSString := none
  agentId : Option JSString := none

/-- `ctx.sessionKey ?? ctx.sessionId ?? "anonymous"` (nullish coalescing: an empty
string is kept, only an absent field falls through). -/
def resolveKey (ctx : BuildCtx) : JSString :=
  match ctx.sessionKey with
  | some k => k
  | none =>
    match ctx.sessionId with
    | some k => k
    | none => jstr "anonymous"

/-- The agentIds filter of the handler:
`Array.isArray(agentIds) && agentIds.length > 0 && (!agentId || !agentIds.includes(agentId))`.
A missing or empty agentId is falsy, so such requests are skipped whenever the
allow-list is non-empty. -/
def skipExp (e : AbTestExperiment) (agentId : Option JSString) : Bool :=
  match e.agentIds with
  | none => false
  | some l =>
    decide (0 < l.length) &&
      (match agentId with
       | none => true
       | some a => decide (a = []) || ! decide (a ∈ l))

/-- The JavaScript whitespace class stripped by String.prototype.trim: tab through
carriage return, space, NBSP, the Ogham space, the Unicode space separators,
line and paragraph separators, narrow and medium spaces, ideographic space, BOM. -/
def isJsWS (c : CodeUnit) : Bool :=
  decide (c = 9) || decide (c = 10) || decide (c = 11) || decide (c = 12) ||
  decide (c = 13) || decide (c = 32) || decide (c = 160) || decide (c = 5760) ||
  decide (c = 8192) || decide (c = 8193) || decide (c = 8194) || decide (c = 8195) ||
  decide (c = 8196) || decide (c = 8197) || decide (c = 8198) || decide (c = 8199) ||
  decide (c = 8200) || decide (c = 8201) || decide (c = 8202) || decide (c = 8232) ||
  decide (c = 8233) || decide (c = 8239) || decide (c = 8287) || decide (c = 12288) ||
  decide (c = 65279)

/-- String.prototype.trim: drop whitespace code units from both ends. -/
def jsTrim (s : JSString) : JSString :=
  ((s.dropWhile isJsWS).reverse.dropWhile isJsWS).reverse

/-- `if (variant.systemPrompt) resultSystemPrompt = variant.systemPrompt`:
a non-empty systemPrompt overwrites the accumulator, anything else keeps it. -/
def updSysP (acc : Option JSString) (v : PromptVariant) : Option JSString :=
  match v.systemPrompt with
  | some sp => if sp = [] then acc else some sp
  | none => acc

/-- `if (variant.prependContext?.trim()) prependParts.push(variant.prependContext.trim())`:
the trimmed prependContext, kept only when non-empty. -/
def trimPart (v : PromptVariant) : Option JSString :=
  match v.prependContext with
  | some p => if jsTrim p = [] then none else some (jsTrim p)
  | none => none

/-- The body of the before_prompt_build loop, threading the assignment cache, the
systemPrompt accumulator and the prependParts list through the active experiments.
An error carries the cache as it stood when the exception escaped. -/
def buildLoop (k : JSString) (aId : Option JSString) :
    List AbTestExperiment → Cache → Option JSString → List JSString →
      Except Cache (Cache × Option JSString × List JSString)
  | [], c, sp, ps => .ok (c, sp, ps)
  | e :: rest, c, sp, ps =>
    if skipExp e aId then buildLoop k aId rest c sp ps
    else
      match getVariantForSession c k e with
      | (some v, c2) => buildLoop k aId rest c2 (updSysP sp v) (ps ++ (trimPart v).toList)
      | (none, c2) => .error c2

/-- The overlay object returned by the handler; a field is none exactly when the
source spreads nothing into the object for it. -/
structure Overlay where
  systemPrompt : Option JSString := none
  prependContext : Option JSString := none
deriving DecidableEq

/-- `prependParts.join("\n\n")`. -/
def joinParts : List JSString → JSString
  | [] => []
  | [p] => p
  | p :: rest => p ++ (10 : CodeUnit) :: (10 : CodeUnit) :: joinParts rest

/-- The before_prompt_build handler: run the loop, then return undefined when no
modification was produced, and otherwise the overlay with exactly the produced
fields. -/
def beforePromptBuild (exps : List AbTestExperiment) (ctx : BuildCtx)
    (cache : Cache) : Except Cache (Option Overlay × Cache) :=
  match buildLoop (resolveKey ctx) ctx.agentId exps cache none [] with
  | .error c => .error c
  | .ok (c, sp, ps) =>
    if sp = none ∧ ps = [] then .ok (none, c)
    else .ok (some { systemPrompt := sp,
                     prependContext := if ps = [] then none else some (joinParts ps) }, c)

/-- The cache left behind by a handler invocation, whether or not it threw. -/
def postCache : Except Cache (Option Overlay × Cache) → Cache
  | .error c => c
  | .ok (_, c) => c

/-- The cache left behind by the loop, whether or not it threw. -/
def loopCache : Except Cache (Cache × Option JSString × List JSString) → Cache
  | .error c => c
  | .ok (c, _, _) => c

-- ============================================================================
-- Claim C3: the memoized lookup against pure recomputation
-- ============================================================================

/-- Cache states reachable from the empty cache by prompt-build invocations whose
resolved session keys contain no ":" code unit. -/
inductive ReachableNC (exps : List AbTestExperiment) : Cache → Prop where
  | nil : ReachableNC exps []
  | step (cache : Cache) (ctx : BuildCtx) :
      ReachableNC exps cache → colonCU ∉ resolveKey ctx →
      ReachableNC exps (postCache (beforePromptBuild exps ctx cache))

/-- Invariant of the assignment cache: every entry was stored under the composite
key of a colon-free session key and an active experiment, with the value that pure
recomputation produces for that pair. -/
def CacheInv (exps : List AbTestExperiment) (cache : Cache) : Prop :=
  ∀ p ∈ cache, ∃ k e, colonCU ∉ k ∧ e ∈ exps ∧ p.1 = compositeKey k e.id ∧
    some p.2 = assignVariant k e.id e.variants

lemma mapGet_mem : ∀ (c : Cache) (key : JSString) (v : PromptVariant),
    mapGet c key = some v → (key, v) ∈ c := by
  intro c
  induction c with
  | nil => intro key v h; simp [mapGet] at h
  | cons p rest ih =>
    intro key v h
    obtain ⟨k1, v1⟩ := p
    simp only [mapGet] at h
    split at h
    · rw [Option.some.injEq] at h
      subst h
      rename_i hk
      subst hk
      exact List.mem_cons_self _ _
    · exact List.mem_cons_of_mem _ (ih key v h)

lemma getVariantForSession_inv {exps : List AbTestExperiment} {cache : Cache}
    (hinv : CacheInv exps cache) {k : JSString} (hk : colonCU ∉ k)
    {e : AbTestExperiment} (he : e ∈ exps) :
    CacheInv exps (getVariantForSession cache k e).2 := by
  unfold getVariantForSession
  cases hg : mapGet cache (compositeKey k e.id) with
  | some v => exact hinv
  | none =>
    cases ha : assignVariant k e.id e.variants with
    | none => exact hinv
    | some v =>
      intro p hp
      rcases List.mem_cons.mp hp with hfst | hrest
      · exact ⟨k, e, hk, he, by rw [hfst], by rw [hfst, ha]⟩
      · exact hinv p hrest

lemma buildLoop_inv {exps : List AbTestExperiment} {k : JSString}
    (hk : colonCU ∉ k) (aId : Option JSString) :
    ∀ (l : List AbTestExperiment), (∀ e ∈ l, e ∈ exps) →
      ∀ (c : Cache), CacheInv exps c → ∀ (sp : Option JSString) (ps : List JSString),
        CacheInv exps (loopCache (buildLoop k aId l c sp ps)) := by
  intro l
  induction l with
  | nil => intro _ c hc sp ps; exact hc
  | cons e rest ih =>
    intro hsub c hc sp ps
    have he : e ∈ exps := hsub e (List.mem_cons_self _ _)
    have hsub2 : ∀ x ∈ rest, x ∈ exps := fun x hx => hsub x (List.mem_cons_of_mem _ hx)
    simp only [buildLoop]
    by_cases hskip : skipExp e aId = true
    · simp only [hskip, if_true]
      exact ih hsub2 c hc sp ps
    · simp only [hskip, if_false]
      have hinv2 : CacheInv exps (getVariantForSession c k e).2 :=
        getVariantForSession_inv hc hk he
      cases hg : getVariantForSession c k e with
      | mk fst c2 =>
        rw [hg] at hinv2
        cases fst with
        | some v => exact ih hsub2 c2 hinv2 _ _
        | none => exact hinv2

lemma postCache_beforePromptBuild (exps : List AbTestExperiment) (ctx : BuildCtx)
    (cache : Cache) :
    postCache (beforePromptBuild exps ctx cache)
      = loopCache (buildLoop (resolveKey ctx) ctx.agentId exps cache none []) := by
  unfold beforePromptBuild
  cases h : buildLoop (resolveKey ctx) ctx.agentId exps cache none [] with
  | error c => rfl
  | ok t =>
    obtain ⟨c, sp, ps⟩ := t
    by_cases hc : sp = none ∧ ps = []
    · simp [hc, postCache, loopCache]
    · simp [hc, postCache, loopCache]

lemma reachable_cacheInv (exps : List AbTestExperiment) (cache : Cache)
    (h : ReachableNC exps cache) : CacheInv exps cache := by
  induction h with
  | nil => intro p hp; simp at hp
  | step cache2 ctx _ hk ih =>
    rw [postCache_beforePromptBuild]
    exact buildLoop_inv hk ctx.agentId exps (fun _ hx => hx) cache2 ih none []

/-- Claim C3 (amended): for active experiment lists with pairwise distinct ids, and
for every cache state reachable by prompt-build invocations whose resolved session
keys contain no ":", the memoized lookup returns exactly what pure recomputation
returns, for every colon-free session key and active experiment. -/
theorem c3_cache_refines_recompute (exps : List AbTestExperiment)
    (hids : (exps.map AbTestExperiment.id).Nodup)
    (cache : Cache) (hreach : ReachableNC exps cache)
    (k : JSString) (hk : colonCU ∉ k) (e : AbTestExperiment) (he : e ∈ exps) :
    (getVariantForSession cache k e).1 = assignVariant k e.id e.variants := by
  have hinv : CacheInv exps cache := reachable_cacheInv exps cache hreach
  unfold getVariantForSession
  cases hg : mapGet cache (compositeKey k e.id) with
  | none =>
    cases ha : assignVariant k e.id e.variants with
    | some v => rfl
    | none => rfl
  | some v =>
    obtain ⟨k2, e2, hk2, he2, hkey, hval⟩ := hinv _ (mapGet_mem _ _ _ hg)
    have hkey2 : compositeKey k2 e2.id = compositeKey k e.id := hkey.symm
    have hval2 : some v = assignVariant k2 e2.id e2.variants := hval
    have hsplit := append_sep_inj hk2 hk hkey2
    have hee : e2 = e := List.inj_on_of_nodup_map hids he2 he hsplit.2
    show some v = assignVariant k e.id e.variants
    rw [← hsplit.1, ← hee]
    exact hval2

/-- A one-experiment, one-variant configuration used to instantiate claim C3. -/
def c3Exp : AbTestExperiment := { id := jstr "exp", variants := [{ id := jstr "v" }] }

/-- Witness for claim C3 at the empty (trivially reachable) cache. -/
theorem c3_witness :
    (getVariantForSession [] (jstr "sess") c3Exp).1
      = assignVariant (jstr "sess") c3Exp.id c3Exp.variants :=
  c3_cache_refines_recompute [c3Exp] (by decide) [] ReachableNC.nil
    (jstr "sess") (by decide) c3Exp (List.mem_cons_self _ _)

lemma getVariantForSession_fresh (cache : Cache) (k : JSString) (e : AbTestExperiment)
    (v : PromptVariant) (hmg : mapGet cache (compositeKey k e.id) = none)
    (hvar : e.variants = [v]) :
    getVariantForSession cache k e = (some v, (compositeKey k e.id, v) :: cache) := by
  unfold getVariantForSession
  rw [hmg, hvar, assignVariant_singleton]

lemma getVariantForSession_hit (cache : Cache) (k : JSString) (e : AbTestExperiment)
    (v : PromptVariant) (hmg : mapGet cache (compositeKey k e.id) = some v) :
    getVariantForSession cache k e = (some v, cache) := by
  unfold getVariantForSession
  rw [hmg]

/-- A variant named "a", the pool of the experiment with id "x:e". -/
def c3VarA : PromptVariant := { id := jstr "a" }

/-- A variant named "b", the pool of the experiment with id "e". -/
def c3VarB : PromptVariant := { id := jstr "b" }

/-- An active experiment whose id contains a colon. -/
def c3ExpXE : AbTestExperiment := { id := jstr "x:e", variants := [c3VarA] }

/-- An active experiment with a colon-free id but a colliding composite key. -/
def c3ExpE : AbTestExperiment := { id := jstr "e", variants := [c3VarB] }

/-- A prompt-build request with session key "s". -/
def c3Ctx : BuildCtx := { sessionKey := some (jstr "s") }

/-- The cache produced by one prompt-build with session key "s" over the two
experiments: "s:e" maps to b and "s:x:e" maps to a. -/
def c3CacheLit : Cache :=
  [(compositeKey (jstr "s") (jstr "e"), c3VarB),
   (compositeKey (jstr "s") (jstr "x:e"), c3VarA)]

lemma c3_one_step :
    beforePromptBuild [c3ExpXE, c3ExpE] c3Ctx [] = .ok (none, c3CacheLit) := by
  have hr : resolveKey c3Ctx = jstr "s" := rfl
  have ha : c3Ctx.agentId = (none : Option JSString) := rfl
  have hskip1 : skipExp c3ExpXE none = false := rfl
  have hskip2 : skipExp c3ExpE none = false := rfl
  have hg1 : getVariantForSession [] (jstr "s") c3ExpXE
      = (some c3VarA, [(compositeKey (jstr "s") (jstr "x:e"), c3VarA)]) :=
    getVariantForSession_fresh [] (jstr "s") c3ExpXE c3VarA rfl rfl
  have hg2 : getVariantForSession [(compositeKey (jstr "s") (jstr "x:e"), c3VarA)]
      (jstr "s") c3ExpE = (some c3VarB, c3CacheLit) :=
    getVariantForSession_fresh _ _ c3ExpE c3VarB (by decide) rfl
  simp only [beforePromptBuild, buildLoop, hr, ha, hskip1, hskip2, hg1, hg2,
    Bool.false_eq_true, if_false]
  rfl

/-- Counterexample to claim C3 as stated: after one prompt-build with session key
"s" over experiments "x:e" and "e", the lookup for session key "s:x" in experiment
"e" hits the colliding composite key "s:x:e" and returns variant a, while pure
recomputation returns variant b. -/
theorem c3_counterexample :
    postCache (beforePromptBuild [c3ExpXE, c3ExpE] c3Ctx []) = c3CacheLit ∧
    (getVariantForSession c3CacheLit (jstr "s:x") c3ExpE).1 = some c3VarA ∧
    assignVariant (jstr "s:x") c3ExpE.id c3ExpE.variants = some c3VarB ∧
    c3VarA ≠ c3VarB := by
  refine ⟨by rw [c3_one_step]; rfl, ?_, ?_, by decide⟩
  · have hmg : mapGet c3CacheLit (compositeKey (jstr "s:x") c3ExpE.id) = some c3VarA := by
      decide
    rw [getVariantForSession_hit _ _ _ _ hmg]
  · rw [show c3ExpE.variants = [c3VarB] from rfl, assignVariant_singleton]

-- ============================================================================
-- Claim C7: overlay composition
-- ============================================================================

/-- The variants the handler resolves, one per qualifying experiment in iteration
order, with the cache threaded exactly as the loop threads it. -/
def obtainVars (k : JSString) (aId : Option JSString) :
    List AbTestExperiment → Cache → Except Cache (List PromptVariant × Cache)
  | [], c => .ok ([], c)
  | e :: rest, c =>
    if skipExp e aId then obtainVars k aId rest c
    else
      match getVariantForSession c k e with
      | (some v, c2) =>
        match obtainVars k aId rest c2 with
        | .ok (vs, c3) => .ok (v :: vs, c3)
        | .error c3 => .error c3
      | (none, c2) => .error c2

/-- The systemPrompt accumulator after folding the loop body over a variant list. -/
def foldSys (sp : Option JSString) (vs : List PromptVariant) : Option JSString :=
  vs.foldl updSysP sp

/-- The trimmed non-empty prependContext values of a variant list, in order. -/
def trimParts (vs : List PromptVariant) : List JSString := vs.filterMap trimPart

/-- Whether a variant carries a truthy (present and non-empty) systemPrompt. -/
def hasSysP (v : PromptVariant) : Bool :=
  match v.systemPrompt with
  | some sp => ! decide (sp = [])
  | none => false

/-- The systemPrompt contribution of one variant: its value when truthy, else none. -/
def sysTruthy (v : PromptVariant) : Option JSString :=
  match v.systemPrompt with
  | some sp => if sp = [] then none else some sp
  | none => none

/-- The claim-worded winner: the systemPrompt of the last variant in iteration order
that has a non-empty systemPrompt. -/
def lastSysSpec (vs : List PromptVariant) : Option JSString :=
  (vs.reverse.find? hasSysP).bind PromptVariant.systemPrompt

lemma updSysP_eq_or (sp : Option JSString) (v : PromptVariant) :
    updSysP sp v = (sysTruthy v).or sp := by
  unfold updSysP sysTruthy
  cases v.systemPrompt with
  | none => rfl
  | some s =>
    by_cases hs : s = []
    · simp [hs]
    · simp [hs]

lemma lastSysSpec_cons (v : PromptVariant) (vs : List PromptVariant) :
    lastSysSpec (v :: vs) = (lastSysSpec vs).or (sysTruthy v) := by
  unfold lastSysSpec
  rw [List.reverse_cons, List.find?_append]
  cases hf : vs.reverse.find? hasSysP with
  | some w =>
    have hw : hasSysP w = true := List.find?_some hf
    unfold hasSysP at hw
    cases hws : w.systemPrompt with
    | none => rw [hws] at hw; simp at hw
    | some s =>
      rw [hws] at hw
      simp only [Option.or, Option.bind, hws]
  | none =>
    simp only [Option.or]
    cases hv : [v].find? hasSysP with
    | some w =>
      have hmem : w ∈ [v] := List.mem_of_find?_eq_some hv
      have hww : w = v := by simpa using hmem
      subst hww
      have hw : hasSysP w = true := List.find?_some hv
      unfold hasSysP at hw
      cases hws : w.systemPrompt with
      | none => rw [hws] at hw; simp at hw
      | some s =>
        rw [hws] at hw
        simp only [Bool.not_eq_eq_eq_not, Bool.not_true, decide_eq_false_iff_not] at hw
        unfold sysTruthy
        rw [hws]
        simp only [Option.bind, hws]
        rw [if_neg hw]
    | none =>
      have hv2 : hasSysP v = false := by
        by_contra hcon
        rw [List.find?_cons_of_pos _ (by simpa using hcon)] at hv
        exact Option.noConfusion hv
      unfold sysTruthy
      unfold hasSysP at hv2
      cases hws : v.systemPrompt with
      | none => rfl
      | some s =>
        rw [hws] at hv2
        have hs : s = [] := by simpa using hv2
        subst hs
        simp [sysTruthy, hws, Option.or]

lemma foldSys_eq : ∀ (vs : List PromptVariant) (sp : Option JSString),
    foldSys sp vs = (lastSysSpec vs).or sp := by
  intro vs
  induction vs with
  | nil => intro sp; rfl
  | cons v t ih =>
    intro sp
    rw [show foldSys sp (v :: t) = foldSys (updSysP sp v) t from rfl]
    rw [ih (updSysP sp v), lastSysSpec_cons, updSysP_eq_or]
    cases lastSysSpec t <;> rfl

lemma buildLoop_char (k : JSString) (aId : Option JSString) :
    ∀ (l : List AbTestExperiment) (c : Cache) (sp : Option JSString) (ps : List JSString),
      buildLoop k aId l c sp ps
        = match obtainVars k aId l c with
          | .ok (vs, c2) => .ok (c2, foldSys sp vs, ps ++ trimParts vs)
          | .error c2 => .error c2 := by
  intro l
  induction l with
  | nil =>
    intro c sp ps
    simp [buildLoop, obtainVars, foldSys, trimParts]
  | cons e rest ih =>
    intro c sp ps
    simp only [buildLoop, obtainVars]
    by_cases hskip : skipExp e aId = true
    · simp only [hskip, if_true]
      exact ih c sp ps
    · simp only [hskip, Bool.false_eq_true, if_false]
      cases hg : getVariantForSession c k e with
      | mk fst c2 =>
        cases fst with
        | none => rfl
        | some v =>
          dsimp only []
          rw [ih c2 (updSysP sp v) (ps ++ (trimPart v).toList)]
          cases ho : obtainVars k aId rest c2 with
          | error c3 => rfl
          | ok t =>
            obtain ⟨vs, c3⟩ := t
            dsimp only []
            have hsys : foldSys (updSysP sp v) vs = foldSys sp (v :: vs) := rfl
            have hparts : (ps ++ (trimPart v).toList) ++ trimParts vs
                = ps ++ trimParts (v :: vs) := by
              rw [List.append_assoc]
              unfold trimParts
              rw [List.filterMap_cons]
              cases trimPart v <;> rfl
            rw [hsys, hparts]

/-- Claim C7: whenever a prompt-build invocation completes, its overlay is composed
from the variants resolved for the qualifying experiments in iteration order: the
overlay is undefined exactly when no variant produced a non-empty systemPrompt or a
non-empty trimmed prependContext; otherwise its systemPrompt is the systemPrompt of
the last variant with a non-empty one, and its prependContext joins the trimmed
non-empty prependContext values in order with a blank-line separator. -/
theorem c7_overlay_composition (exps : List AbTestExperiment) (ctx : BuildCtx)
    (cache : Cache) (vs : List PromptVariant) (c1 : Cache) (r : Option Overlay)
    (c2 : Cache)
    (h1 : obtainVars (resolveKey ctx) ctx.agentId exps cache = .ok (vs, c1))
    (h2 : beforePromptBuild exps ctx cache = .ok (r, c2)) :
    (r = none ↔ (lastSysSpec vs = none ∧ trimParts vs = [])) ∧
    (∀ o : Overlay, r = some o →
      o.systemPrompt = lastSysSpec vs ∧
      o.prependContext
        = (if trimParts vs = [] then none else some (joinParts (trimParts vs)))) := by
  have hb : buildLoop (resolveKey ctx) ctx.agentId exps cache none []
      = .ok (c1, foldSys none vs, trimParts vs) := by
    rw [buildLoop_char, h1]
    simp
  have hsys : foldSys none vs = lastSysSpec vs := by
    rw [foldSys_eq]
    cases lastSysSpec vs <;> rfl
  unfold beforePromptBuild at h2
  rw [hb] at h2
  dsimp only [] at h2
  rw [hsys] at h2
  by_cases hc : lastSysSpec vs = none ∧ trimParts vs = []
  · rw [if_pos hc] at h2
    have hr : (none : Option Overlay) = r := congrArg Prod.fst (Except.ok.inj h2)
    subst hr
    refine ⟨by simp [hc], ?_⟩
    intro o ho
    exact Option.noConfusion ho
  · rw [if_neg hc] at h2
    have hr : some ({ systemPrompt := lastSysSpec vs,
                      prependContext := (if trimParts vs = [] then none
                        else some (joinParts (trimParts vs))) } : Overlay) = r :=
      congrArg Prod.fst (Except.ok.inj h2)
    subst hr
    constructor
    · constructor
      · intro hcon
        exact Option.noConfusion hcon
      · intro hcon
        exact absurd hcon hc
    · intro o ho
      rw [Option.some.injEq] at ho
      rw [← ho]
      exact ⟨rfl, rfl⟩

/-- A variant carrying both a systemPrompt and an untrimmed prependContext. -/
def c7Var : PromptVariant :=
  { id := jstr "v", prependContext := some (jstr " P "), systemPrompt := some (jstr "S") }

/-- A one-experiment configuration used to instantiate claim C7. -/
def c7Exp : AbTestExperiment := { id := jstr "e7", variants := [c7Var] }

/-- A prompt-build request with session key "w". -/
def c7Ctx : BuildCtx := { sessionKey := some (jstr "w") }

/-- The cache after the C7 witness run. -/
def c7CacheW : Cache := [(compositeKey (jstr "w") (jstr "e7"), c7Var)]

/-- The overlay the C7 witness run produces. -/
def c7Overlay : Overlay :=
  { systemPrompt := some (jstr "S"), prependContext := some (jstr "P") }

lemma c7_h1 : obtainVars (resolveKey c7Ctx) c7Ctx.agentId [c7Exp] []
    = .ok ([c7Var], c7CacheW) := by
  have hskip : skipExp c7Exp none = false := rfl
  have hg : getVariantForSession [] (jstr "w") c7Exp = (some c7Var, c7CacheW) :=
    getVariantForSession_fresh [] (jstr "w") c7Exp c7Var rfl rfl
  rw [show resolveKey c7Ctx = jstr "w" from rfl,
    show c7Ctx.agentId = (none : Option JSString) from rfl]
  simp only [obtainVars, hskip, Bool.false_eq_true, if_false, hg]

lemma c7_h2 : beforePromptBuild [c7Exp] c7Ctx [] = .ok (some c7Overlay, c7CacheW) := by
  have hskip : skipExp c7Exp none = false := rfl
  have hg : getVariantForSession [] (jstr "w") c7Exp = (some c7Var, c7CacheW) :=
    getVariantForSession_fresh [] (jstr "w") c7Exp c7Var rfl rfl
  unfold beforePromptBuild
  rw [show resolveKey c7Ctx = jstr "w" from rfl,
    show c7Ctx.agentId = (none : Option JSString) from rfl]
  simp only [buildLoop, hskip, Bool.false_eq_true, if_false, hg]
  rfl

/-- Witness for claim C7 at the one-experiment run with session key "w". -/
theorem c7_witness :
    c7Overlay.systemPrompt = lastSysSpec [c7Var] ∧
    c7Overlay.prependContext
      = (if trimParts [c7Var] = [] then none else some (joinParts (trimParts [c7Var]))) :=
  (c7_overlay_composition [c7Exp] c7Ctx [] [c7Var] c7CacheW (some c7Overlay) c7CacheW
    c7_h1 c7_h2).2 c7Overlay rfl

-- ============================================================================
-- Claim C9: the agent_end reporter (source: index.ts lines 250-267)
-- ============================================================================

/-- The code unit of "=", used in the assignment report entries. -/
def eqCU : CodeUnit := 61

/-- The request context handed to agent_end. -/
structure EndCtx where
  sessionKey : Option JSString := none
  sessionId : Option JSString := none

/-- `ctx.sessionKey ?? ctx.sessionId` (nullish coalescing). -/
def resolveEndKey (ctx : EndCtx) : Option JSString :=
  match ctx.sessionKey with
  | some k => some k
  | none => ctx.sessionId

/-- One report entry: the cached assignment for (sessionKey, experiment id), mapped
to the string `${exp.id}=${variant.id}`, or nothing when no assignment is cached. -/
def assignmentEntry (k : JSString) (cache : Cache) (e : AbTestExperiment) :
    Option JSString :=
  (mapGet cache (compositeKey k e.id)).map (fun v => e.id ++ eqCU :: v.id)

/-- `assignments.join(", ")`. -/
def joinComma : List JSString → JSString
  | [] => []
  | [p] => p
  | p :: rest => p ++ (44 : CodeUnit) :: (32 : CodeUnit) :: joinComma rest

/-- The agent_end handler: resolve the session key, bail out silently when it is
absent or empty, otherwise read the cached assignments of the active experiments in
order and emit one log line when at least one assignment exists. Returns the emitted
log line (if any) and the cache as the handler leaves it. -/
def agentEnd (exps : List AbTestExperiment) (ctx : EndCtx) (cache : Cache) :
    Option JSString × Cache :=
  match resolveEndKey ctx with
  | none => (none, cache)
  | some k =>
    if k = [] then (none, cache)
    else
      if exps.filterMap (assignmentEntry k cache) = [] then (none, cache)
      else (some (jstr "prompt-ab-test: assignments session=" ++ k ++ jstr " [" ++
              joinComma (exps.filterMap (assignmentEntry k cache)) ++ jstr "]"), cache)

/-- Claim C9: the agent_end handler never adds, removes or modifies cache entries —
the cache it leaves behind is the cache it was given — and when both sessionKey and
sessionId are absent it emits no log line. -/
theorem c9_agent_end_frame (exps : List AbTestExperiment) (ctx : EndCtx)
    (cache : Cache) :
    (agentEnd exps ctx cache).2 = cache ∧
    (ctx.sessionKey = none ∧ ctx.sessionId = none →
      (agentEnd exps ctx cache).1 = none) := by
  constructor
  · unfold agentEnd
    cases resolveEndKey ctx with
    | none => rfl
    | some k =>
      by_cases hk : k = []
      · simp [hk]
      · simp only [if_neg hk]
        by_cases ha : exps.filterMap (assignmentEntry k cache) = []
        · simp [ha]
        · simp [ha]
  · intro h
    unfold agentEnd
    rw [show resolveEndKey ctx = none from by unfold resolveEndKey; rw [h.1, h.2]]

/-- Witness for claim C9 at the empty context. -/
theorem c9_witness :
    (agentEnd [] { sessionKey := none, sessionId := none } []).2 = ([] : Cache) ∧
    (agentEnd [] { sessionKey := none, sessionId := none } []).1 = none :=
  ⟨(c9_agent_end_frame [] { sessionKey := none, sessionId := none } []).1,
   (c9_agent_end_frame [] { sessionKey := none, sessionId := none } []).2 ⟨rfl, rfl⟩⟩

-- ============================================================================
-- Claim C8: registration (source: register, index.ts lines 136-165)
-- ============================================================================

/-- A raw experiment entry from the plugin configuration, before validation.
A none id models a missing or non-string id; a none variants models a missing or
non-array variants field; a none raw entry models a null element. -/
structure RawExperiment where
  id : Option JSString := none
  description : Option JSString := none
  enabled : Option Bool := none
  variants : Option (List PromptVariant) := none
  agentIds : Option (List JSString) := none
deriving DecidableEq

/-- The registration shape filter:
`!exp || typeof exp.id !== "string" || !exp.id.trim()` drops an entry, as does
`!Array.isArray(exp.variants) || exp.variants.length === 0`. -/
def validRaw : Option RawExperiment → Bool
  | none => false
  | some e =>
    (match e.id with
     | some i => ! decide (jsTrim i = [])
     | none => false) &&
    (match e.variants with
     | some vs => ! decide (vs = [])
     | none => false)

/-- The validated experiment list. -/
def validExperiments (raws : List (Option RawExperiment)) : List RawExperiment :=
  raws.filterMap (fun r => match r with
    | some e => if validRaw (some e) then some e else none
    | none => none)

/-- `experiments.filter((exp) => exp.enabled !== false)`: the active list. -/
def activeExperimentsOf (raws : List (Option RawExperiment)) : List RawExperiment :=
  (validExperiments raws).filter (fun e => decide (e.enabled ≠ some false))

/-- The keep-predicate exactly as claim C8 words it, with the id condition amended
to what the code checks: the id is a string whose whitespace-trimmed value is
non-empty, the variants field is a non-empty array, and enabled is not explicitly
false. -/
def claimKeep (e : RawExperiment) : Bool :=
  (match e.id with
   | some i => ! decide (jsTrim i = [])
   | none => false) &&
  (match e.variants with
   | some vs => ! decide (vs = [])
   | none => false) &&
  decide (e.enabled ≠ some false)

/-- The active list as claim C8 describes it: the raw entries satisfying the
keep-predicate. -/
def claimActive (raws : List (Option RawExperiment)) : List RawExperiment :=
  raws.filterMap (fun r => match r with
    | some e => if claimKeep e then some e else none
    | none => none)

/-- The three hook points the plugin registers. -/
inductive HookName where
  | beforePromptBuildHook
  | agentEndHook
  | gatewayStartHook
deriving DecidableEq

/-- The observable outcome of running register: which hooks were registered and
which informational and warning lines were logged. -/
structure RegisterResult where
  hooks : List HookName
  infoLogs : List JSString
  warnLogs : List JSString
deriving DecidableEq

/-- The warning a raw entry produces while being filtered, if any. -/
def warnFor : Option RawExperiment → Option JSString
  | none => some (jstr "prompt-ab-test: skipping experiment with missing id")
  | some e =>
    match e.id with
    | none => some (jstr "prompt-ab-test: skipping experiment with missing id")
    | some i =>
      if jsTrim i = [] then
        some (jstr "prompt-ab-test: skipping experiment with missing id")
      else
        match e.variants with
        | some vs =>
          if vs = [] then
            some (jstr "prompt-ab-test: skipping experiment \"" ++ i ++
              jstr "\" — must have at least one variant")
          else none
        | none =>
          some (jstr "prompt-ab-test: skipping experiment \"" ++ i ++
            jstr "\" — must have at least one variant")

/-- The load summary logged when the active list is non-empty. -/
def loadedMsg (active : List RawExperiment) : JSString :=
  jstr "prompt-ab-test: loaded " ++ jstr (toString active.length) ++
  jstr " active experiment(s): " ++ joinComma (active.map (fun e => e.id.getD []))

/-- The register entry point: filter, warn, and either go idle (no hooks) or
register the three hooks and log the load summary. -/
def register (raws : List (Option RawExperiment)) : RegisterResult :=
  if activeExperimentsOf raws = [] then
    { hooks := [],
      infoLogs := [jstr "prompt-ab-test: no active experiments configured, plugin is idle"],
      warnLogs := raws.filterMap warnFor }
  else
    { hooks := [.beforePromptBuildHook, .agentEndHook, .gatewayStartHook],
      infoLogs := [loadedMsg (activeExperimentsOf raws)],
      warnLogs := raws.filterMap warnFor }

/-- Whether the first string starts the second. -/
def leadsWith : JSString → JSString → Bool
  | [], _ => true
  | _ :: _, [] => false
  | a :: as, b :: bs => decide (a = b) && leadsWith as bs

/-- Whether the first string occurs inside the second. -/
def hasSub (needle : JSString) : JSString → Bool
  | [] => decide (needle = [])
  | c :: t => leadsWith needle (c :: t) || hasSub needle t

lemma claimKeep_eq (e : RawExperiment) :
    claimKeep e = (validRaw (some e) && decide (e.enabled ≠ some false)) := rfl

lemma c8_active_eq (raws : List (Option RawExperiment)) :
    activeExperimentsOf raws = claimActive raws := by
  induction raws with
  | nil => rfl
  | cons r t ih =>
    unfold activeExperimentsOf validExperiments claimActive at ih ⊢
    rw [List.filterMap_cons, List.filterMap_cons]
    cases r with
    | none => exact ih
    | some e =>
      dsimp only []
      by_cases hv : validRaw (some e) = true
      · rw [if_pos hv]
        dsimp only []
        rw [List.filter_cons]
        by_cases hen : decide (e.enabled ≠ some false) = true
        · rw [if_pos hen, if_pos (show claimKeep e = true from by
            rw [claimKeep_eq, hv, hen]; rfl)]
          dsimp only []
          rw [ih]
        · have hen2 : decide (e.enabled ≠ some false) = false := by simpa using hen
          rw [if_neg hen, if_neg (show ¬ claimKeep e = true from by
            rw [claimKeep_eq, hv, hen2]; simp)]
          exact ih
      · have hv2 : validRaw (some e) = false := by simpa using hv
        rw [if_neg hv, if_neg (show ¬ claimKeep e = true from by
          rw [claimKeep_eq, hv2]; simp)]
        exact ih

/-- Claim C8 (amended): registration keeps, as the active list, exactly those raw
entries whose id is a string with non-empty whitespace-trimmed value, whose variants
field is a non-empty array, and whose enabled flag is not explicitly false; and when
that list is empty it registers no hooks and logs an informational message
containing "idle". -/
theorem c8_registration_filter (raws : List (Option RawExperiment)) :
    activeExperimentsOf raws = claimActive raws ∧
    (activeExperimentsOf raws = [] →
      (register raws).hooks = [] ∧
      ∃ m ∈ (register raws).infoLogs, hasSub (jstr "idle") m = true) := by
  refine ⟨c8_active_eq raws, fun hempty => ?_⟩
  unfold register
  rw [if_pos hempty]
  exact ⟨rfl, ⟨_, List.mem_singleton.mpr rfl, by decide⟩⟩

/-- A raw entry whose id is the non-empty string " " (a single space) and whose
variant pool is non-empty. -/
def c8BlankId : RawExperiment :=
  { id := some (jstr " "), variants := some [{ id := jstr "c" }] }

/-- Counterexample to claim C8 as stated: the entry with the non-empty id " " and a
non-empty variant pool and enabled not explicitly false satisfies the keep-predicate
of the claim, yet registration drops it, because the code requires the trimmed id to
be non-empty. -/
theorem c8_counterexample :
    activeExperimentsOf [some c8BlankId] = [] ∧
    c8BlankId.id = some (jstr " ") ∧ jstr " " ≠ [] ∧
    c8BlankId.variants = some [{ id := jstr "c" }] ∧
    ([{ id := jstr "c" }] : List PromptVariant) ≠ [] ∧
    c8BlankId.enabled ≠ some false := by
  refine ⟨by decide, rfl, by decide, rfl, by decide, by decide⟩

/-- Witness for claim C8 at the empty configuration. -/
theorem c8_witness :
    activeExperimentsOf [] = claimActive [] ∧
    ((register []).hooks = [] ∧
      ∃ m ∈ (register []).infoLogs, hasSub (jstr "idle") m = true) :=
  ⟨(c8_registration_filter []).1, (c8_registration_filter []).2 rfl⟩
